import Mathlib

/-!
Verification of the memory-game match engine in `src/script.js`.

The JavaScript state machine is embedded shallowly: the module-level mutable
globals (`cards`, `flippedCards`, `matchedCount`, `moves`, `timer`, `time`,
`gameStarted`, `lockBoard`) become the fields of `GState`; DOM card elements
become `Card` records carrying a synthetic numeric `id` that models JavaScript
object identity (the `setTimeout` callbacks of `handleMismatch` close over
card object references, which survive a `createBoard` rebuild as detached
nodes; `createBoard` hands out fresh ids, so a stale callback's ids match no
current card — exactly as `classList.remove` on a detached node changes no
card on the new board).  Scheduled `setTimeout` callbacks are modelled by the
`pending` list; `createBoard` does not touch it, because the source never
calls `clearTimeout`.  Purely presentational effects (CSS tilt, shake
animation, entrance transitions, DOM text) are omitted, except for the
`finalMoves` / `finalTime` texts written by `endGame`, which the spec names.
-/

namespace MemoryGame

/-- The fixed 8-symbol alphabet (`icons` in `script.js`). -/
def icons : List String :=
  ["fa-heart", "fa-star", "fa-bolt", "fa-moon", "fa-leaf", "fa-gem", "fa-fire", "fa-music"]

/-- A card element: `id` models JS object identity, `icon` is `dataset.icon`,
`flipped` / `matched` are the presence of the corresponding CSS classes. -/
structure Card where
  id      : Nat
  icon    : String
  flipped : Bool
  matched : Bool
deriving DecidableEq, Repr

/-- The spec's tri-state tile status. -/
inductive Status where
  | hidden
  | revealed
  | matched
deriving DecidableEq, Repr

/-- A card's status in the spec's vocabulary: the `matched` class wins,
otherwise the `flipped` class means revealed, otherwise hidden. -/
def Card.status (c : Card) : Status :=
  if c.matched then Status.matched
  else if c.flipped then Status.revealed
  else Status.hidden

/-- A scheduled `setTimeout` callback: the 900ms mismatch reversion closing
over two card references (by id), or the 400ms `endGame` call. -/
inductive Timeout where
  | mismatch (c1 c2 : Nat)
  | endGame
deriving DecidableEq, Repr

/-- The module-level game state of `script.js`.  `timerOn` is whether the
`setInterval` handle is live; `winShown` is the `show` class on `winOverlay`;
`nextId` is the id supply for freshly created card elements. -/
structure GState where
  cards        : List Card
  flippedCards : List Nat
  matchedCount : Nat
  moves        : Nat
  time         : Nat
  gameStarted  : Bool
  timerOn      : Bool
  lockBoard    : Bool
  winShown     : Bool
  finalMoves   : Nat
  finalTime    : Nat
  pending      : List Timeout
  nextId       : Nat
deriving Repr

/-- The globals before the initial `createBoard()` call at script load. -/
def initialGlobals : GState :=
  { cards := [], flippedCards := [], matchedCount := 0, moves := 0, time := 0,
    gameStarted := false, timerOn := false, lockBoard := false, winShown := false,
    finalMoves := 0, finalTime := 0, pending := [], nextId := 0 }

/-- Swap the elements at positions `i` and `j`
(`[array[i], array[j]] = [array[j], array[i]]`). -/
def swapAt (l : List α) (i j : Nat) : List α :=
  match l.get? i, l.get? j with
  | some a, some b => (l.set i b).set j a
  | _, _ => l

/-- The Fisher-Yates loop of `shuffle`: for `i` from `n` down to `1`, pick
`j = Math.floor(Math.random() * (i + 1))` — modelled as `r i % (i + 1)`, an
arbitrary outcome of the random source in `[0, i]` — and swap `i` with `j`. -/
def shuffleGo (r : Nat → Nat) : Nat → List α → List α
  | 0, l => l
  | n + 1, l => shuffleGo r n (swapAt l (n + 1) (r (n + 1) % (n + 2)))

/-- The `shuffle(array)` function from `script.js`. -/
def shuffle (r : Nat → Nat) (l : List α) : List α :=
  shuffleGo r (l.length - 1) l

/-- The card-construction `forEach` loop of `createBoard`: one fresh card
element per icon, ids assigned in order from `startId`. -/
def mkCards (startId : Nat) : List String → List Card
  | [] => []
  | ic :: rest =>
      { id := startId, icon := ic, flipped := false, matched := false } :: mkCards (startId + 1) rest

/-- JS `startTimer()`: start the interval on the first move only. -/
def startTimer (s : GState) : GState :=
  if s.gameStarted then s
  else { s with gameStarted := true, timerOn := true }

/-- JS `resetTimer()`: clear the interval, zero the clock. -/
def resetTimer (s : GState) : GState :=
  { s with timerOn := false, time := 0, gameStarted := false }

/-- JS `resetTurn()`. -/
def resetTurn (s : GState) : GState :=
  { s with flippedCards := [], lockBoard := false }

/-- Set the `flipped` class of the card object with identity `cid`
(`card.classList.add("flipped")` / `.remove("flipped")`). -/
def setFlipped (l : List Card) (cid : Nat) (v : Bool) : List Card :=
  l.map fun c => if c.id = cid then { c with flipped := v } else c

/-- Set the `matched` class of the card object with identity `cid`. -/
def setMatched (l : List Card) (cid : Nat) : List Card :=
  l.map fun c => if c.id = cid then { c with matched := true } else c

/-- Dereference a card identity against the current board. -/
def findCard (l : List Card) (cid : Nat) : Option Card :=
  l.find? fun c => c.id == cid

/-- JS `handleMatch(card1, card2)`: mark both matched, bump `matchedCount`,
clear the turn, and schedule `endGame` when the board is complete. -/
def handleMatch (c1 c2 : Nat) (s : GState) : GState :=
  let s1 := { s with cards := setMatched (setMatched s.cards c1) c2,
                     matchedCount := s.matchedCount + 2 }
  let s2 := resetTurn s1
  if s2.matchedCount = s2.cards.length then
    { s2 with pending := s2.pending ++ [Timeout.endGame] }
  else s2

/-- JS `handleMismatch(card1, card2)`: schedule the 900ms reversion closing over
the two card references; the lock stays held (shake animation omitted). -/
def handleMismatch (c1 c2 : Nat) (s : GState) : GState :=
  { s with pending := s.pending ++ [Timeout.mismatch c1 c2] }

/-- JS `checkForMatch()`: take the lock, read the two flipped card references,
compare their `dataset.icon`.  (The fallthrough branches are unreachable:
`checkForMatch` is only called with two live references in `flippedCards`.) -/
def checkForMatch (s : GState) : GState :=
  let s1 := { s with lockBoard := true }
  match s1.flippedCards with
  | c1 :: c2 :: _ =>
    match findCard s1.cards c1, findCard s1.cards c2 with
    | some card1, some card2 =>
        if card1.icon = card2.icon then handleMatch c1 c2 s1 else handleMismatch c1 c2 s1
    | _, _ => s1
  | _ => s1

/-- JS `flipCard(card)` for the card at board position `i`: no-op when locked or
already flipped/matched, else start the timer, flip, push, and on the second
flip of the turn count a move and evaluate. -/
def flipCard (i : Nat) (s : GState) : GState :=
  match s.cards.get? i with
  | none => s
  | some card =>
    if s.lockBoard then s
    else if card.flipped || card.matched then s
    else
      let s1 := startTimer s
      let s2 := { s1 with cards := setFlipped s1.cards card.id true,
                          flippedCards := s1.flippedCards ++ [card.id] }
      if s2.flippedCards.length = 2 then
        checkForMatch { s2 with moves := s2.moves + 1 }
      else s2

/-- JS `endGame()`: stop the interval, publish the final counters, show the
win overlay. -/
def endGame (s : GState) : GState :=
  { s with timerOn := false, finalMoves := s.moves, finalTime := s.time, winShown := true }

/-- Run one scheduled callback.  The mismatch reversion removes `flipped`
from the two captured card objects (a stale id matches no current card, as a
detached DOM node is not on the new board) and then calls `resetTurn()`
unconditionally on the current globals. -/
def runTimeout (t : Timeout) (s : GState) : GState :=
  match t with
  | Timeout.mismatch c1 c2 =>
      resetTurn { s with cards := setFlipped (setFlipped s.cards c1 false) c2 false }
  | Timeout.endGame => endGame s

/-- The `k`-th scheduled callback fires and leaves the pending queue. -/
def fire (k : Nat) (s : GState) : GState :=
  match s.pending.get? k with
  | none => s
  | some t => runTimeout t { s with pending := s.pending.eraseIdx k }

/-- One `setInterval` tick: increment `time` while the interval is live. -/
def tick (s : GState) : GState :=
  if s.timerOn then { s with time := s.time + 1 } else s

/-- JS `createBoard()`: clear all game state, reset the timer, hide the overlay,
shuffle the duplicated alphabet and build fresh card elements.  The source
never calls `clearTimeout`, so `pending` is untouched. -/
def createBoard (r : Nat → Nat) (s : GState) : GState :=
  let s1 := { s with flippedCards := [], matchedCount := 0, moves := 0, lockBoard := false }
  let s2 := resetTimer s1
  let s3 := { s2 with winShown := false }
  let cardIcons := shuffle r (icons ++ icons)
  { s3 with cards := mkCards s3.nextId cardIcons, nextId := s3.nextId + cardIcons.length }

/-- The state after script load: `createBoard()` from pristine globals. -/
def init (r : Nat → Nat) : GState :=
  createBoard r initialGlobals

/-- An external event driving the engine: a click on the card at position
`i`, a scheduled callback firing, an interval tick, or a restart click. -/
inductive Event where
  | flip (i : Nat)
  | fire (k : Nat)
  | tick
  | reset (r : Nat → Nat)

/-- Whether an event is a restart click. -/
def Event.isReset : Event → Bool
  | Event.reset _ => true
  | _ => false

/-- The event dispatcher. -/
def step (e : Event) (s : GState) : GState :=
  match e with
  | Event.flip i => flipCard i s
  | Event.fire k => fire k s
  | Event.tick => tick s
  | Event.reset r => createBoard r s

/-- Run a sequence of events. -/
def run (es : List Event) (s : GState) : GState :=
  es.foldl (fun t e => step e t) s

/-- Number of tiles currently in `revealed` (flipped-but-not-matched) status. -/
def revealedCount (s : GState) : Nat :=
  (s.cards.filter fun c => c.status == Status.revealed).length

/-- The click at position `i` completes a turn: it is effective (not locked,
card present, face down, unmatched) and one tile is already in the turn. -/
def completesTurn (s : GState) (i : Nat) : Prop :=
  s.lockBoard = false ∧ s.flippedCards.length = 1 ∧
    ∃ c, s.cards.get? i = some c ∧ c.flipped = false ∧ c.matched = false

instance (s : GState) (i : Nat) : Decidable (completesTurn s i) := by
  unfold completesTurn
  infer_instance

/-- A random source under which the Fisher-Yates loop picks `j = i` at every
step, leaving the order unchanged; used for concrete traces. -/
def rid : Nat → Nat := fun i => i

/-- Concrete event traces (under the identity-outcome random source `rid`)
used to evaluate the engine at specific inputs: a first-turn mismatch; a
restart plus a reveal while the stale reversion is still scheduled; the stale
reversion firing mid-turn followed by two more reveals; a straight win in
eight matching turns plus the scheduled `endGame`; a single matching turn. -/
def mismatchTrace : List Event := [Event.flip 0, Event.flip 1]

/-- See `mismatchTrace`. -/
def staleTrace : List Event :=
  [Event.flip 0, Event.flip 1, Event.reset rid, Event.flip 0]

/-- See `mismatchTrace`. -/
def tripleTrace : List Event :=
  staleTrace ++ [Event.fire 0, Event.flip 1, Event.flip 2]

/-- See `mismatchTrace`. -/
def winTrace : List Event :=
  [Event.flip 0, Event.flip 8, Event.flip 1, Event.flip 9, Event.flip 2, Event.flip 10,
   Event.flip 3, Event.flip 11, Event.flip 4, Event.flip 12, Event.flip 5, Event.flip 13,
   Event.flip 6, Event.flip 14, Event.flip 7, Event.flip 15, Event.fire 0]

/-- See `mismatchTrace`. -/
def matchTrace : List Event := [Event.flip 0, Event.flip 8]

/-- Coupling of the lock, the turn list and the pending queue: either nothing
is scheduled and at most one tile is in the turn, or the game is won and
`endGame` is scheduled, or a mismatch reversion is scheduled, the lock is
held and the turn holds exactly the two mismatched cards. -/
def pendingOkP (s : GState) : Prop :=
  (s.pending = [] ∧ s.lockBoard = false ∧ s.flippedCards.length ≤ 1) ∨
  (s.pending = [Timeout.endGame] ∧ s.lockBoard = false ∧ s.flippedCards.length ≤ 1 ∧
     s.matchedCount = s.cards.length) ∨
  (∃ a ∈ s.flippedCards, ∃ b ∈ s.flippedCards,
     s.pending = [Timeout.mismatch a b] ∧ s.lockBoard = true ∧ s.flippedCards = [a, b])

/-- The single-game inductive invariant: distinct card identities, the turn
list holds exactly the flipped-unmatched cards without duplicates, the
lock/pending coupling, `matchedCount` counts the matched cards, the win
overlay and scheduled `endGame` agree with a complete board, the timer is
stopped once the overlay shows, and the board is nonempty. -/
def Inv (s : GState) : Prop :=
  (s.cards.map fun c => c.id).Nodup ∧
  s.flippedCards.Nodup ∧
  (∀ cid ∈ s.flippedCards, ∃ c ∈ s.cards, c.id = cid ∧ c.flipped = true ∧ c.matched = false) ∧
  (∀ c ∈ s.cards, c.flipped = true → c.matched = false → c.id ∈ s.flippedCards) ∧
  pendingOkP s ∧
  s.matchedCount = (s.cards.filter fun c => c.matched).length ∧
  (s.winShown = true → s.matchedCount = s.cards.length) ∧
  (s.matchedCount = s.cards.length → s.pending = [Timeout.endGame] ∨ s.winShown = true) ∧
  (s.winShown = true → s.timerOn = false) ∧
  s.cards ≠ []

/-- Card-list preservation of matched tiles: every matched card of `l`
still appears (by identity) matched in `l'`. -/
def MPres (l l' : List Card) : Prop :=
  ∀ c ∈ l, c.matched = true → ∃ c' ∈ l', c'.id = c.id ∧ c'.matched = true

/-- Reachability within one game: some event sequence without a restart,
starting from the script-load state. -/
def InGameReach (s : GState) : Prop :=
  ∃ r : Nat → Nat, ∃ es : List Event,
    (∀ e ∈ es, e.isReset = false) ∧ s = run es (init r)

/-! ### List helper lemmas -/

theorem filter_len_all {l : List α} {p : α → Bool}
    (h : (l.filter p).length = l.length) : ∀ x ∈ l, p x = true := by
  induction l with
  | nil => intro x hx; cases hx
  | cons a t ih =>
    intro x hx
    by_cases hp : p a
    · rcases List.mem_cons.mp hx with rfl | hx'
      · exact hp
      · refine ih ?_ x hx'
        simpa [List.filter_cons, hp] using h
    · exfalso
      have hle : (t.filter p).length ≤ t.length := t.length_filter_le p
      simp [List.filter_cons, hp] at h
      omega

theorem all_filter_len {l : List α} {p : α → Bool}
    (h : ∀ x ∈ l, p x = true) : (l.filter p).length = l.length := by
  induction l with
  | nil => rfl
  | cons a t ih =>
    have ha : p a = true := h a (List.mem_cons_self a t)
    have ht : ∀ x ∈ t, p x = true := fun x hx => h x (List.mem_cons_of_mem a hx)
    simp [List.filter_cons, ha, ih ht]

theorem filter_lt_of_mem {l : List α} {p : α → Bool} {c : α}
    (hc : c ∈ l) (hp : p c = false) : (l.filter p).length < l.length := by
  induction l with
  | nil => cases hc
  | cons a t ih =>
    rcases List.mem_cons.mp hc with rfl | hc'
    · have hle : (t.filter p).length ≤ t.length := t.length_filter_le p
      simp [List.filter_cons, hp]
      omega
    · by_cases hpa : p a
      · simpa [List.filter_cons, hpa] using Nat.succ_lt_succ (ih hc')
      · have hle : (t.filter p).length < t.length := ih hc'
        simp [List.filter_cons, hpa]
        omega

theorem inj_on_ids {l : List Card} (hnd : (l.map fun c => c.id).Nodup)
    {c c' : Card} (hc : c ∈ l) (hc' : c' ∈ l) (hid : c.id = c'.id) : c = c' := by
  induction l with
  | nil => cases hc
  | cons a t ih =>
    rw [List.map_cons, List.nodup_cons] at hnd
    rcases List.mem_cons.mp hc with rfl | hcm
    · rcases List.mem_cons.mp hc' with rfl | hcm'
      · rfl
      · exact absurd (hid ▸ List.mem_map_of_mem (fun c => c.id) hcm') hnd.1
    · rcases List.mem_cons.mp hc' with rfl | hcm'
      · exact absurd (hid ▸ List.mem_map_of_mem (fun c => c.id) hcm) hnd.1
      · exact ih hnd.2 hcm hcm'

/-! ### Lemmas about card updates -/

theorem setFlipped_nil (cid : Nat) (v : Bool) : setFlipped [] cid v = [] := rfl

theorem setFlipped_cons (a : Card) (t : List Card) (cid : Nat) (v : Bool) :
    setFlipped (a :: t) cid v
      = (if a.id = cid then { a with flipped := v } else a) :: setFlipped t cid v := rfl

theorem setMatched_nil (cid : Nat) : setMatched [] cid = [] := rfl

theorem setMatched_cons (a : Card) (t : List Card) (cid : Nat) :
    setMatched (a :: t) cid
      = (if a.id = cid then { a with matched := true } else a) :: setMatched t cid := rfl

theorem setFlipped_map_id (l : List Card) (cid : Nat) (v : Bool) :
    ((setFlipped l cid v).map fun c => c.id) = l.map fun c => c.id := by
  induction l with
  | nil => rfl
  | cons a t ih =>
    by_cases h : a.id = cid <;> simp [setFlipped_cons, h, ih]

theorem setMatched_map_id (l : List Card) (cid : Nat) :
    ((setMatched l cid).map fun c => c.id) = l.map fun c => c.id := by
  induction l with
  | nil => rfl
  | cons a t ih =>
    by_cases h : a.id = cid <;> simp [setMatched_cons, h, ih]

theorem setFlipped_length (l : List Card) (cid : Nat) (v : Bool) :
    (setFlipped l cid v).length = l.length := by
  simp [setFlipped]

theorem setMatched_length (l : List Card) (cid : Nat) :
    (setMatched l cid).length = l.length := by
  simp [setMatched]

theorem setFlipped_matched_count (l : List Card) (cid : Nat) (v : Bool) :
    ((setFlipped l cid v).filter fun c => c.matched).length
      = (l.filter fun c => c.matched).length := by
  induction l with
  | nil => rfl
  | cons a t ih =>
    by_cases h : a.id = cid <;>
      by_cases hm : a.matched <;>
        simp [setFlipped_cons, List.filter_cons, h, hm, ih]

theorem setFlipped_not_mem {l : List Card} {cid : Nat} (v : Bool)
    (h : ∀ c ∈ l, c.id ≠ cid) : setFlipped l cid v = l := by
  induction l with
  | nil => rfl
  | cons a t ih =>
    have ha : a.id ≠ cid := h a (List.mem_cons_self a t)
    have ht : ∀ c ∈ t, c.id ≠ cid := fun c hc => h c (List.mem_cons_of_mem a hc)
    rw [setFlipped_cons, if_neg ha, ih ht]

theorem setMatched_not_mem {l : List Card} {cid : Nat}
    (h : ∀ c ∈ l, c.id ≠ cid) : setMatched l cid = l := by
  induction l with
  | nil => rfl
  | cons a t ih =>
    have ha : a.id ≠ cid := h a (List.mem_cons_self a t)
    have ht : ∀ c ∈ t, c.id ≠ cid := fun c hc => h c (List.mem_cons_of_mem a hc)
    rw [setMatched_cons, if_neg ha, ih ht]

theorem setMatched_matched_count {l : List Card} {cid : Nat}
    (hnd : (l.map fun c => c.id).Nodup) {c0 : Card}
    (hc0 : c0 ∈ l) (hid : c0.id = cid) (hm : c0.matched = false) :
    ((setMatched l cid).filter fun c => c.matched).length
      = (l.filter fun c => c.matched).length + 1 := by
  induction l with
  | nil => cases hc0
  | cons a t ih =>
    rw [List.map_cons, List.nodup_cons] at hnd
    rcases List.mem_cons.mp hc0 with rfl | hmem
    · have ht : ∀ c ∈ t, c.id ≠ cid := by
        intro c hc hcid
        exact hnd.1 (by simpa [hcid, hid] using List.mem_map_of_mem (fun c => c.id) hc)
      rw [setMatched_cons, if_pos hid, setMatched_not_mem ht]
      simp [List.filter_cons, hm]
    · have ha : a.id ≠ cid := by
        intro hcid
        have : c0.id ∈ t.map fun c => c.id := List.mem_map_of_mem (fun c => c.id) hmem
        rw [hid, ← hcid] at this
        exact hnd.1 this
      rw [setMatched_cons, if_neg ha]
      by_cases hma : a.matched <;>
        simp [List.filter_cons, hma, ih hnd.2 hmem]

theorem setFlipped_pair (l : List Card) (a b : Nat) (v : Bool) :
    setFlipped (setFlipped l a v) b v
      = l.map fun c => if c.id = a ∨ c.id = b then { c with flipped := v } else c := by
  induction l with
  | nil => rfl
  | cons c t ih =>
    rw [setFlipped_cons, setFlipped_cons, List.map_cons, ih]
    by_cases ha : c.id = a <;> by_cases hb : c.id = b <;>
      simp [ha, hb] <;> split_ifs <;> simp_all

theorem setMatched_pair (l : List Card) (a b : Nat) :
    setMatched (setMatched l a) b
      = l.map fun c => if c.id = a ∨ c.id = b then { c with matched := true } else c := by
  induction l with
  | nil => rfl
  | cons c t ih =>
    rw [setMatched_cons, setMatched_cons, List.map_cons, ih]
    by_cases ha : c.id = a <;> by_cases hb : c.id = b <;>
      simp [ha, hb] <;> split_ifs <;> simp_all

theorem findCard_eq {l : List Card} (hnd : (l.map fun c => c.id).Nodup)
    {c : Card} {cid : Nat} (hc : c ∈ l) (hid : c.id = cid) :
    findCard l cid = some c := by
  induction l with
  | nil => cases hc
  | cons a t ih =>
    rw [List.map_cons, List.nodup_cons] at hnd
    rcases List.mem_cons.mp hc with rfl | hmem
    · simp [findCard, List.find?_cons, hid]
    · have ha : a.id ≠ cid := by
        intro hcid
        have : c.id ∈ t.map fun c => c.id := List.mem_map_of_mem (fun c => c.id) hmem
        rw [hid, ← hcid] at this
        exact hnd.1 this
      simpa [findCard, List.find?_cons, ha] using ih hnd.2 hmem

/-! ### Lemmas about mkCards -/

theorem mkCards_length (k : Nat) (l : List String) : (mkCards k l).length = l.length := by
  induction l generalizing k with
  | nil => rfl
  | cons ic rest ih => simp [mkCards, ih]

theorem mkCards_id_ge (k : Nat) (l : List String) : ∀ c ∈ mkCards k l, k ≤ c.id := by
  induction l generalizing k with
  | nil => intro c hc; cases hc
  | cons ic rest ih =>
    intro c hc
    rcases List.mem_cons.mp hc with rfl | hc'
    · exact Nat.le_refl k
    · exact Nat.le_of_succ_le (ih (k + 1) c hc')

theorem mkCards_ids_nodup (k : Nat) (l : List String) :
    ((mkCards k l).map fun c => c.id).Nodup := by
  induction l generalizing k with
  | nil => exact List.nodup_nil
  | cons ic rest ih =>
    rw [mkCards, List.map_cons, List.nodup_cons]
    refine ⟨?_, ih (k + 1)⟩
    intro hmem
    rcases List.mem_map.mp hmem with ⟨c, hc, hid⟩
    have hge := mkCards_id_ge (k + 1) rest c hc
    have hid' : c.id = k := hid
    omega

theorem mkCards_fresh (k : Nat) (l : List String) :
    ∀ c ∈ mkCards k l, c.flipped = false ∧ c.matched = false := by
  induction l generalizing k with
  | nil => intro c hc; cases hc
  | cons ic rest ih =>
    intro c hc
    rcases List.mem_cons.mp hc with rfl | hc'
    · exact ⟨rfl, rfl⟩
    · exact ih (k + 1) c hc'

theorem mkCards_map_icon (k : Nat) (l : List String) :
    ((mkCards k l).map fun c => c.icon) = l := by
  induction l generalizing k with
  | nil => rfl
  | cons ic rest ih => simp [mkCards, ih]

theorem mkCards_obs (k : Nat) (l : List String) :
    ((mkCards k l).map fun c => (c.icon, c.flipped, c.matched))
      = l.map fun ic => (ic, false, false) := by
  induction l generalizing k with
  | nil => rfl
  | cons ic rest ih => simp [mkCards, ih]

/-! ### The shuffle is a permutation -/

theorem set_cons_perm {t : List α} {k : Nat} {b : α} (a : α)
    (h : t.get? k = some b) : List.Perm (b :: t.set k a) (a :: t) := by
  induction t generalizing k with
  | nil => cases h
  | cons c t' ih =>
    cases k with
    | zero =>
      rw [List.get?_cons_zero, Option.some.injEq] at h
      rw [h]
      exact List.Perm.swap a b t'
    | succ k' =>
      rw [List.get?_cons_succ] at h
      refine List.Perm.trans (List.Perm.swap c b (t'.set k' a)) ?_
      refine List.Perm.trans (List.Perm.cons c (ih h)) ?_
      exact List.Perm.swap a c t'

theorem set_set_perm {l : List α} {i j : Nat} {a b : α}
    (h1 : l.get? i = some a) (h2 : l.get? j = some b) :
    List.Perm ((l.set i b).set j a) l := by
  induction l generalizing i j with
  | nil => cases h1
  | cons c t ih =>
    cases i with
    | zero =>
      rw [List.get?_cons_zero, Option.some.injEq] at h1
      cases j with
      | zero =>
        rw [h1]
        exact List.Perm.refl _
      | succ k =>
        rw [List.get?_cons_succ] at h2
        rw [h1]
        exact set_cons_perm a h2
    | succ m =>
      rw [List.get?_cons_succ] at h1
      cases j with
      | zero =>
        rw [List.get?_cons_zero, Option.some.injEq] at h2
        rw [h2]
        exact set_cons_perm b h1
      | succ k =>
        rw [List.get?_cons_succ] at h2
        exact List.Perm.cons c (ih h1 h2)

theorem swapAt_perm (l : List α) (i j : Nat) : List.Perm (swapAt l i j) l := by
  unfold swapAt
  cases h1 : l.get? i with
  | none => cases h2 : l.get? j <;> exact List.Perm.refl l
  | some a =>
    cases h2 : l.get? j with
    | none => exact List.Perm.refl l
    | some b => exact set_set_perm h1 h2

theorem shuffleGo_perm (r : Nat → Nat) (n : Nat) (l : List α) :
    List.Perm (shuffleGo r n l) l := by
  induction n generalizing l with
  | zero => exact List.Perm.refl l
  | succ m ih =>
    exact List.Perm.trans (ih _) (swapAt_perm l (m + 1) (r (m + 1) % (m + 2)))

theorem shuffle_perm (r : Nat → Nat) (l : List α) : List.Perm (shuffle r l) l :=
  shuffleGo_perm r (l.length - 1) l

/-! ### Unfolding equations for the engine operations -/

@[simp] theorem startTimer_cards (s : GState) : (startTimer s).cards = s.cards := by
  unfold startTimer; split <;> rfl

@[simp] theorem startTimer_flippedCards (s : GState) :
    (startTimer s).flippedCards = s.flippedCards := by
  unfold startTimer; split <;> rfl

@[simp] theorem startTimer_matchedCount (s : GState) :
    (startTimer s).matchedCount = s.matchedCount := by
  unfold startTimer; split <;> rfl

@[simp] theorem startTimer_moves (s : GState) : (startTimer s).moves = s.moves := by
  unfold startTimer; split <;> rfl

@[simp] theorem startTimer_time (s : GState) : (startTimer s).time = s.time := by
  unfold startTimer; split <;> rfl

@[simp] theorem startTimer_lockBoard (s : GState) : (startTimer s).lockBoard = s.lockBoard := by
  unfold startTimer; split <;> rfl

@[simp] theorem startTimer_winShown (s : GState) : (startTimer s).winShown = s.winShown := by
  unfold startTimer; split <;> rfl

@[simp] theorem startTimer_pending (s : GState) : (startTimer s).pending = s.pending := by
  unfold startTimer; split <;> rfl

theorem flipCard_eq_none {s : GState} {i : Nat} (h : s.cards.get? i = none) :
    flipCard i s = s := by
  unfold flipCard; rw [h]

theorem flipCard_eq_some {s : GState} {i : Nat} {card : Card}
    (h : s.cards.get? i = some card) :
    flipCard i s =
      (if s.lockBoard then s
       else if card.flipped || card.matched then s
       else
         let s1 := startTimer s
         let s2 := { s1 with cards := setFlipped s1.cards card.id true,
                             flippedCards := s1.flippedCards ++ [card.id] }
         if s2.flippedCards.length = 2 then checkForMatch { s2 with moves := s2.moves + 1 }
         else s2) := by
  unfold flipCard; rw [h]

theorem checkForMatch_pair {s : GState} {c1 c2 : Nat} (hf : s.flippedCards = [c1, c2])
    {card1 card2 : Card}
    (h1 : findCard s.cards c1 = some card1) (h2 : findCard s.cards c2 = some card2) :
    checkForMatch s =
      (if card1.icon = card2.icon
       then handleMatch c1 c2 { s with lockBoard := true }
       else handleMismatch c1 c2 { s with lockBoard := true }) := by
  unfold checkForMatch
  simp only [hf, h1, h2]

theorem fire_eq_oob {s : GState} {k : Nat} (h : s.pending.get? k = none) : fire k s = s := by
  unfold fire; rw [h]

theorem runTimeout_mismatch (c1 c2 : Nat) (s : GState) :
    runTimeout (Timeout.mismatch c1 c2) s
      = resetTurn { s with cards := setFlipped (setFlipped s.cards c1 false) c2 false } := rfl

theorem runTimeout_endGame (s : GState) : runTimeout Timeout.endGame s = endGame s := rfl

theorem fire_eq_head {s : GState} {t : Timeout} {rest : List Timeout}
    (h : s.pending = t :: rest) : fire 0 s = runTimeout t { s with pending := rest } := by
  unfold fire
  rw [h]
  rfl

theorem run_nil (s : GState) : run [] s = s := rfl

theorem run_cons (e : Event) (es : List Event) (s : GState) :
    run (e :: es) s = run es (step e s) := rfl

/-! ### Preservation of the invariant within a game -/

theorem inv_tick {s : GState} (h : Inv s) : Inv (tick s) := by
  unfold tick
  split
  · exact h
  · exact h

theorem cards_ne_nil_of_map {l : List Card} (f : Card → Card) (hne : l ≠ []) :
    l.map f ≠ [] := by
  intro hcon
  exact hne (List.map_eq_nil_iff.mp hcon)

theorem inv_fire {s : GState} (h : Inv s) (k : Nat) : Inv (fire k s) := by
  obtain ⟨hnd, hfnd, hsound, hcomp, hpend, hmc, hwa, haw, hwt, hne⟩ := h
  rcases hpend with ⟨hp, hl, hf⟩ | ⟨hp, hl, hf, hm⟩ | ⟨a, hamem, b, hbmem, hp, hl, hf⟩
  · -- nothing is scheduled: every fire is a no-op
    have hnone : s.pending.get? k = none := by rw [hp]; rfl
    rw [fire_eq_oob hnone]
    exact ⟨hnd, hfnd, hsound, hcomp, Or.inl ⟨hp, hl, hf⟩, hmc, hwa, haw, hwt, hne⟩
  · -- the endGame call is scheduled
    cases k with
    | zero =>
      rw [fire_eq_head hp, runTimeout_endGame]
      unfold endGame
      refine ⟨hnd, hfnd, hsound, hcomp, Or.inl ⟨rfl, hl, hf⟩, hmc, ?_, ?_, ?_, hne⟩
      · intro _; exact hm
      · intro _; exact Or.inr rfl
      · intro _; rfl
    | succ k' =>
      have hnone : s.pending.get? (k' + 1) = none := by rw [hp]; rfl
      rw [fire_eq_oob hnone]
      exact ⟨hnd, hfnd, hsound, hcomp, Or.inr (Or.inl ⟨hp, hl, hf, hm⟩), hmc, hwa, haw, hwt, hne⟩
  · -- the mismatch reversion is scheduled for cards a and b
    obtain ⟨ca, hca_mem, hca_id, hca_fl, hca_m⟩ := hsound a hamem
    cases k with
    | zero =>
      rw [fire_eq_head hp, runTimeout_mismatch]
      unfold resetTurn
      rw [setFlipped_pair]
      refine ⟨?_, List.nodup_nil, ?_, ?_, Or.inl ⟨rfl, rfl, by simp⟩, ?_, ?_, ?_, ?_, ?_⟩
      · show ((s.cards.map fun c =>
          if c.id = a ∨ c.id = b then { c with flipped := false } else c).map fun c => c.id).Nodup
        rw [← setFlipped_pair, setFlipped_map_id, setFlipped_map_id]
        exact hnd
      · intro cid hcid; cases hcid
      · intro c' hc' hfl hm'
        exfalso
        rcases List.mem_map.mp hc' with ⟨c, hcmem, hceq⟩
        by_cases hid : c.id = a ∨ c.id = b
        · rw [if_pos hid] at hceq
          rw [← hceq] at hfl
          cases hfl
        · rw [if_neg hid] at hceq
          subst hceq
          have := hcomp c hcmem hfl hm'
          rw [hf] at this
          rcases List.mem_cons.mp this with h1 | h1
          · exact hid (Or.inl h1)
          · rcases List.mem_cons.mp h1 with h2 | h2
            · exact hid (Or.inr h2)
            · cases h2
      · show s.matchedCount = _
        rw [← setFlipped_pair, setFlipped_matched_count, setFlipped_matched_count]
        exact hmc
      · intro hws
        show s.matchedCount = _
        rw [← setFlipped_pair, setFlipped_length, setFlipped_length]
        exact hwa hws
      · intro hfull
        exfalso
        rw [← setFlipped_pair, setFlipped_length, setFlipped_length] at hfull
        have hall := filter_len_all (hmc ▸ hfull)
        have := hall ca hca_mem
        rw [hca_m] at this
        cases this
      · intro hws; exact hwt hws
      · exact cards_ne_nil_of_map _ hne
    | succ k' =>
      have hnone : s.pending.get? (k' + 1) = none := by rw [hp]; rfl
      rw [fire_eq_oob hnone]
      exact ⟨hnd, hfnd, hsound, hcomp,
        Or.inr (Or.inr ⟨a, hamem, b, hbmem, hp, hl, hf⟩), hmc, hwa, haw, hwt, hne⟩


theorem setFlipped_mem_self {l : List Card} {c : Card} (hc : c ∈ l) (v : Bool) :
    { c with flipped := v } ∈ setFlipped l c.id v := by
  have h2 := List.mem_map_of_mem (fun x => if x.id = c.id then { x with flipped := v } else x) hc
  dsimp only at h2
  rw [if_pos rfl] at h2
  exact h2

theorem setFlipped_mem_other {l : List Card} {c : Card} {cid : Nat} (hc : c ∈ l)
    (h : c.id ≠ cid) (v : Bool) : c ∈ setFlipped l cid v := by
  have h2 := List.mem_map_of_mem (fun x => if x.id = cid then { x with flipped := v } else x) hc
  dsimp only at h2
  rw [if_neg h] at h2
  exact h2

theorem mem_setFlipped_elim {l : List Card} {cid : Nat} {v : Bool} {c' : Card}
    (h : c' ∈ setFlipped l cid v) :
    ∃ c ∈ l, c' = if c.id = cid then { c with flipped := v } else c := by
  rcases List.mem_map.mp h with ⟨c, hc, hceq⟩
  exact ⟨c, hc, hceq.symm⟩

theorem setMatched_mem_self {l : List Card} {c : Card} (hc : c ∈ l) :
    { c with matched := true } ∈ setMatched l c.id := by
  have h2 := List.mem_map_of_mem (fun x => if x.id = c.id then { x with matched := true } else x) hc
  dsimp only at h2
  rw [if_pos rfl] at h2
  exact h2

theorem setMatched_mem_other {l : List Card} {c : Card} {cid : Nat} (hc : c ∈ l)
    (h : c.id ≠ cid) : c ∈ setMatched l cid := by
  have h2 := List.mem_map_of_mem (fun x => if x.id = cid then { x with matched := true } else x) hc
  dsimp only at h2
  rw [if_neg h] at h2
  exact h2

theorem mem_setMatched_elim {l : List Card} {cid : Nat} {c' : Card}
    (h : c' ∈ setMatched l cid) :
    ∃ c ∈ l, c' = if c.id = cid then { c with matched := true } else c := by
  rcases List.mem_map.mp h with ⟨c, hc, hceq⟩
  exact ⟨c, hc, hceq.symm⟩

theorem inv_checkForMatch {s : GState} {c1 c2 : Nat} {card1 card2 : Card}
    (hf : s.flippedCards = [c1, c2])
    (hne12 : c1 ≠ c2)
    (hnd : (s.cards.map fun c => c.id).Nodup)
    (h1mem : card1 ∈ s.cards) (h1id : card1.id = c1) (h1fl : card1.flipped = true)
    (h1m : card1.matched = false)
    (h2mem : card2 ∈ s.cards) (h2id : card2.id = c2) (h2fl : card2.flipped = true)
    (h2m : card2.matched = false)
    (hcomp : ∀ c ∈ s.cards, c.flipped = true → c.matched = false → c.id ∈ s.flippedCards)
    (hp : s.pending = [])
    (hmc : s.matchedCount = (s.cards.filter fun c => c.matched).length)
    (hws : s.winShown = false)
    (hne : s.cards ≠ []) :
    Inv (checkForMatch s) := by
  have hfind1 : findCard s.cards c1 = some card1 := findCard_eq hnd h1mem h1id
  have hfind2 : findCard s.cards c2 = some card2 := findCard_eq hnd h2mem h2id
  rw [checkForMatch_pair hf hfind1 hfind2]
  by_cases hicon : card1.icon = card2.icon
  · rw [if_pos hicon]
    unfold handleMatch resetTurn
    dsimp only
    rw [hp]
    simp only [List.nil_append]
    have hlen : (setMatched (setMatched s.cards c1) c2).length = s.cards.length := by
      rw [setMatched_length, setMatched_length]
    have hnd2 : ((setMatched (setMatched s.cards c1) c2).map fun c => c.id).Nodup := by
      rw [setMatched_map_id, setMatched_map_id]; exact hnd
    have hnd1 : ((setMatched s.cards c1).map fun c => c.id).Nodup := by
      rw [setMatched_map_id]; exact hnd
    have h2ne1 : card2.id ≠ c1 := by rw [h2id]; exact fun hh => hne12 hh.symm
    have h2mem' : card2 ∈ setMatched s.cards c1 := setMatched_mem_other h2mem h2ne1
    have hcount : ((setMatched (setMatched s.cards c1) c2).filter fun c => c.matched).length
        = (s.cards.filter fun c => c.matched).length + 2 := by
      have hstep1 := setMatched_matched_count hnd h1mem h1id h1m
      have hstep2 := setMatched_matched_count hnd1 h2mem' h2id h2m
      omega
    have hcomp2 : ∀ c' ∈ setMatched (setMatched s.cards c1) c2,
        c'.flipped = true → c'.matched = false → False := by
      intro c' hc' hfl hm'
      rcases mem_setMatched_elim hc' with ⟨c, hcmem, hceq⟩
      by_cases hid2 : c.id = c2
      · rw [if_pos hid2] at hceq
        rw [hceq] at hm'
        cases hm'
      · rw [if_neg hid2] at hceq
        rcases mem_setMatched_elim hcmem with ⟨d, hdmem, hdeq⟩
        by_cases hid1 : d.id = c1
        · rw [if_pos hid1] at hdeq
          rw [hceq, hdeq] at hm'
          cases hm'
        · rw [if_neg hid1] at hdeq
          rw [hceq, hdeq] at hfl hm'
          have hmem2 := hcomp d hdmem hfl hm'
          rw [hf] at hmem2
          rcases List.mem_cons.mp hmem2 with hx | hx
          · exact hid1 hx
          · rcases List.mem_cons.mp hx with hy | hy
            · rw [hdeq] at hid2
              exact hid2 hy
            · cases hy
    by_cases hfull : s.matchedCount + 2 = (setMatched (setMatched s.cards c1) c2).length
    · rw [if_pos hfull]
      refine ⟨hnd2, List.nodup_nil, ?_, ?_, ?_, ?_, ?_, ?_, ?_, ?_⟩
      · intro cid hcid; cases hcid
      · intro c' hc' hfl hm'
        exact absurd (hcomp2 c' hc' hfl hm') (fun hh => hh)
      · exact Or.inr (Or.inl ⟨rfl, rfl, by simp, hfull⟩)
      · dsimp only
        omega
      · intro _
        exact hfull
      · intro _
        exact Or.inl rfl
      · intro hw
        rw [hws] at hw
        cases hw
      · unfold setMatched
        exact cards_ne_nil_of_map _ (cards_ne_nil_of_map _ hne)
    · rw [if_neg hfull]
      refine ⟨hnd2, List.nodup_nil, ?_, ?_, ?_, ?_, ?_, ?_, ?_, ?_⟩
      · intro cid hcid; cases hcid
      · intro c' hc' hfl hm'
        exact absurd (hcomp2 c' hc' hfl hm') (fun hh => hh)
      · exact Or.inl ⟨rfl, rfl, by simp⟩
      · dsimp only
        omega
      · intro hw
        rw [hws] at hw
        cases hw
      · intro h8
        exact absurd h8 hfull
      · intro hw
        rw [hws] at hw
        cases hw
      · unfold setMatched
        exact cards_ne_nil_of_map _ (cards_ne_nil_of_map _ hne)
  · rw [if_neg hicon]
    unfold handleMismatch
    dsimp only
    rw [hp]
    simp only [List.nil_append]
    refine ⟨hnd, ?_, ?_, ?_, ?_, hmc, ?_, ?_, ?_, hne⟩
    · rw [hf]
      simp [hne12]
    · intro cid hcid
      rw [hf] at hcid
      rcases List.mem_cons.mp hcid with hx | hx
      · exact ⟨card1, h1mem, by rw [h1id, hx], h1fl, h1m⟩
      · rcases List.mem_cons.mp hx with hy | hy
        · exact ⟨card2, h2mem, by rw [h2id, hy], h2fl, h2m⟩
        · cases hy
    · intro c hc hfl hm'
      exact hcomp c hc hfl hm'
    · refine Or.inr (Or.inr ⟨c1, ?_, c2, ?_, rfl, rfl, hf⟩)
      · rw [hf]; exact List.mem_cons_self _ _
      · rw [hf]; exact List.mem_cons_of_mem _ (List.mem_cons_self _ _)
    · intro hw
      rw [hws] at hw
      cases hw
    · intro h8
      dsimp only at h8
      have hlt2 : (s.cards.filter fun c => c.matched).length < s.cards.length :=
        filter_lt_of_mem h1mem h1m
      omega
    · intro hw
      rw [hws] at hw
      cases hw

theorem inv_flip {s : GState} (h : Inv s) (i : Nat) : Inv (flipCard i s) := by
  cases hget : s.cards.get? i with
  | none => rw [flipCard_eq_none hget]; exact h
  | some card =>
    rw [flipCard_eq_some hget]
    by_cases hlock : s.lockBoard = true
    · rw [if_pos hlock]; exact h
    · rw [if_neg hlock]
      by_cases hfm : (card.flipped || card.matched) = true
      · rw [if_pos hfm]; exact h
      · rw [if_neg hfm]
        obtain ⟨hnd, hfnd, hsound, hcomp, hpend, hmc, hwa, haw, hwt, hne⟩ := h
        have hl : s.lockBoard = false := by simpa using hlock
        have hor : (card.flipped || card.matched) = false := by simpa using hfm
        obtain ⟨hcf, hcm⟩ := Bool.or_eq_false_iff.mp hor
        have hcard_mem : card ∈ s.cards := List.get?_mem hget
        have hlt : (s.cards.filter fun c => c.matched).length < s.cards.length :=
          filter_lt_of_mem hcard_mem hcm
        have hmcne : s.matchedCount ≠ s.cards.length := by rw [hmc]; omega
        have hws : s.winShown = false := by
          by_contra hcon
          have hw : s.winShown = true := by simpa using hcon
          exact hmcne (hwa hw)
        have hpf : s.pending = [] ∧ s.flippedCards.length ≤ 1 := by
          rcases hpend with ⟨hp, _, hflen⟩ | ⟨hp, _, hflen, hm⟩ | ⟨a, _, b, _, hp, hl2, hflen⟩
          · exact ⟨hp, hflen⟩
          · exact absurd hm hmcne
          · rw [hl2] at hl; cases hl
        have hnotin : card.id ∉ s.flippedCards := by
          intro hin
          obtain ⟨c, hcmem, hcid, hcfl, hcmm⟩ := hsound card.id hin
          have hceq := inj_on_ids hnd hcmem hcard_mem hcid
          rw [hceq, hcf] at hcfl
          cases hcfl
        cases hfceq : s.flippedCards with
        | nil =>
          simp only [startTimer_flippedCards, startTimer_cards, hfceq, List.nil_append,
            List.length_cons, List.length_nil]
          rw [if_neg (by omega)]
          refine ⟨?_, ?_, ?_, ?_, ?_, ?_, ?_, ?_, ?_, ?_⟩
          · dsimp only
            rw [setFlipped_map_id]
            exact hnd
          · dsimp only
            exact List.nodup_singleton _
          · intro cid hcid
            dsimp only at hcid
            rw [List.mem_singleton] at hcid
            subst hcid
            exact ⟨{ card with flipped := true }, setFlipped_mem_self hcard_mem true, rfl, rfl, hcm⟩
          · intro c' hc' hfl hm'
            dsimp only at hc' ⊢
            rcases mem_setFlipped_elim hc' with ⟨c, hcmem, hceq⟩
            by_cases hid : c.id = card.id
            · rw [if_pos hid] at hceq
              subst hceq
              rw [List.mem_singleton]
              exact hid
            · rw [if_neg hid] at hceq
              rw [hceq] at hfl hm' ⊢
              have hmem2 := hcomp c hcmem hfl hm'
              rw [hfceq] at hmem2
              cases hmem2
          · refine Or.inl ⟨?_, ?_, ?_⟩
            · dsimp only
              rw [startTimer_pending]
              exact hpf.1
            · dsimp only
              rw [startTimer_lockBoard]
              exact hl
            · dsimp only
              simp
          · dsimp only
            rw [startTimer_matchedCount, setFlipped_matched_count]
            exact hmc
          · intro hw
            dsimp only at hw ⊢
            rw [startTimer_winShown, hws] at hw
            cases hw
          · intro hfull
            dsimp only at hfull
            rw [startTimer_matchedCount, setFlipped_length] at hfull
            exact absurd hfull hmcne
          · intro hw
            dsimp only at hw
            rw [startTimer_winShown, hws] at hw
            cases hw
          · dsimp only
            unfold setFlipped
            exact cards_ne_nil_of_map _ hne
        | cons c1 rest =>
          cases rest with
          | cons c2 rest2 =>
            exfalso
            rw [hfceq] at hpf
            have hcon := hpf.2
            simp at hcon
          | nil =>
            obtain ⟨cc1, hcc1_mem, hcc1_id, hcc1_fl, hcc1_m⟩ :=
              hsound c1 (by rw [hfceq]; exact List.mem_cons_self c1 [])
            have hne1 : c1 ≠ card.id := by
              intro he
              apply hnotin
              rw [hfceq, he]
              exact List.mem_cons_self _ _
            have hcc1_ne : cc1.id ≠ card.id := by rw [hcc1_id]; exact hne1
            have nnd : ((setFlipped s.cards card.id true).map fun c => c.id).Nodup := by
              rw [setFlipped_map_id]; exact hnd
            simp only [startTimer_flippedCards, startTimer_cards, startTimer_pending,
              startTimer_matchedCount, startTimer_winShown, startTimer_lockBoard,
              startTimer_moves, hfceq, List.cons_append, List.nil_append,
              List.length_cons, List.length_nil]
            rw [if_pos trivial]
            refine inv_checkForMatch rfl hne1 nnd
              (setFlipped_mem_other hcc1_mem hcc1_ne true) hcc1_id hcc1_fl hcc1_m
              (setFlipped_mem_self hcard_mem true) rfl rfl hcm
              ?_ ?_ ?_ hws ?_
            · intro c hc hfl hm'
              rcases mem_setFlipped_elim hc with ⟨d, hdmem, hdeq⟩
              by_cases hid : d.id = card.id
              · rw [if_pos hid] at hdeq
                rw [hdeq]
                show d.id ∈ _
                rw [hid]
                exact List.mem_cons_of_mem _ (List.mem_cons_self _ _)
              · rw [if_neg hid] at hdeq
                rw [hdeq] at hfl hm' ⊢
                have hmem2 := hcomp d hdmem hfl hm'
                rw [hfceq] at hmem2
                rcases List.mem_cons.mp hmem2 with hx | hx
                · rw [hx]
                  exact List.mem_cons_self _ _
                · cases hx
            · exact hpf.1
            · show s.matchedCount = _
              rw [setFlipped_matched_count]
              exact hmc
            · unfold setFlipped
              exact cards_ne_nil_of_map _ hne

/-- Field equations for `createBoard`. -/
theorem createBoard_fields (r : Nat → Nat) (s : GState) :
    (createBoard r s).cards = mkCards s.nextId (shuffle r (icons ++ icons)) ∧
    (createBoard r s).flippedCards = [] ∧
    (createBoard r s).matchedCount = 0 ∧
    (createBoard r s).moves = 0 ∧
    (createBoard r s).time = 0 ∧
    (createBoard r s).gameStarted = false ∧
    (createBoard r s).timerOn = false ∧
    (createBoard r s).lockBoard = false ∧
    (createBoard r s).winShown = false ∧
    (createBoard r s).pending = s.pending ∧
    (createBoard r s).finalMoves = s.finalMoves ∧
    (createBoard r s).finalTime = s.finalTime := by
  unfold createBoard
  exact ⟨rfl, rfl, rfl, rfl, rfl, rfl, rfl, rfl, rfl, rfl, rfl, rfl⟩

/-- A fresh board from `createBoard` satisfies the single-game invariant,
provided no callback of an older game is still scheduled. -/
theorem inv_createBoard (r : Nat → Nat) (s : GState) (hp : s.pending = []) :
    Inv (createBoard r s) := by
  obtain ⟨hc, hf, hm0, hmv, ht, hg, hto, hlb, hws, hpd, hfm2, hft2⟩ := createBoard_fields r s
  have hlen : (createBoard r s).cards.length = 16 := by
    rw [hc, mkCards_length, (shuffle_perm r (icons ++ icons)).length_eq]
    rfl
  have hfresh : ∀ c ∈ (createBoard r s).cards, c.flipped = false ∧ c.matched = false := by
    rw [hc]; exact mkCards_fresh _ _
  refine ⟨?_, ?_, ?_, ?_, ?_, ?_, ?_, ?_, ?_, ?_⟩
  · rw [hc]; exact mkCards_ids_nodup _ _
  · rw [hf]; exact List.nodup_nil
  · rw [hf]; intro cid hcid; cases hcid
  · intro c hcmem hfl hm'
    rw [(hfresh c hcmem).1] at hfl
    cases hfl
  · refine Or.inl ⟨?_, hlb, ?_⟩
    · rw [hpd]; exact hp
    · rw [hf]; simp
  · rw [hm0]
    have hnil : (createBoard r s).cards.filter (fun c => c.matched) = [] := by
      apply List.filter_eq_nil_iff.mpr
      intro c hcmem
      rw [(hfresh c hcmem).2]
      simp
    rw [hnil]
    rfl
  · intro hw
    rw [hws] at hw
    cases hw
  · intro hcon
    rw [hm0, hlen] at hcon
    cases hcon
  · intro hw
    rw [hws] at hw
    cases hw
  · intro hcon
    rw [hcon] at hlen
    simp at hlen

/-- Every non-restart event preserves the single-game invariant. -/
theorem inv_preserved {s : GState} (h : Inv s) {e : Event} (he : e.isReset = false) :
    Inv (step e s) := by
  cases e with
  | flip i => exact inv_flip h i
  | fire k => exact inv_fire h k
  | tick => exact inv_tick h
  | reset r => cases he

/-- The invariant is preserved by any restart-free event sequence. -/
theorem inv_run {s : GState} (h : Inv s) {es : List Event}
    (hes : ∀ e ∈ es, e.isReset = false) : Inv (run es s) := by
  induction es generalizing s with
  | nil => exact h
  | cons e es ih =>
    rw [run_cons]
    exact ih (inv_preserved h (hes e (List.mem_cons_self e es)))
      fun e' he' => hes e' (List.mem_cons_of_mem e he')

/-- Every state reachable within one game satisfies the invariant. -/
theorem reach_inv {s : GState} (h : InGameReach s) : Inv s := by
  obtain ⟨r, es, hes, rfl⟩ := h
  exact inv_run (inv_createBoard r initialGlobals rfl) hes

/-! ### Small step-equation helpers for the claim theorems -/

theorem fire_eq_some {s : GState} {k : Nat} {t : Timeout} (h : s.pending.get? k = some t) :
    fire k s = runTimeout t { s with pending := s.pending.eraseIdx k } := by
  unfold fire; rw [h]

theorem runTimeout_moves (t : Timeout) (s : GState) : (runTimeout t s).moves = s.moves := by
  cases t <;> rfl

theorem handleMatch_moves (c1 c2 : Nat) (s : GState) :
    (handleMatch c1 c2 s).moves = s.moves := by
  unfold handleMatch resetTurn
  dsimp only
  split <;> rfl

theorem handleMatch_cards (c1 c2 : Nat) (s : GState) :
    (handleMatch c1 c2 s).cards = setMatched (setMatched s.cards c1) c2 := by
  unfold handleMatch resetTurn
  dsimp only
  split <;> rfl

theorem handleMatch_matchedCount (c1 c2 : Nat) (s : GState) :
    (handleMatch c1 c2 s).matchedCount = s.matchedCount + 2 := by
  unfold handleMatch resetTurn
  dsimp only
  split <;> rfl

theorem checkForMatch_moves (s : GState) : (checkForMatch s).moves = s.moves := by
  unfold checkForMatch
  dsimp only
  split
  · split
    · split
      · rw [handleMatch_moves]
      · rfl
    · rfl
  · rfl

theorem tick_moves (s : GState) : (tick s).moves = s.moves := by
  unfold tick
  split <;> rfl

theorem tick_eq_off {s : GState} (h : s.timerOn = false) : tick s = s := by
  unfold tick
  rw [h]
  simp

theorem setFlipped_get? {l : List Card} {j : Nat} {c : Card} (h : l.get? j = some c)
    (cid : Nat) (v : Bool) :
    (setFlipped l cid v).get? j = some (if c.id = cid then { c with flipped := v } else c) := by
  unfold setFlipped
  rw [List.get?_map, h]
  rfl

theorem setMatched_get? {l : List Card} {j : Nat} {c : Card} (h : l.get? j = some c)
    (cid : Nat) :
    (setMatched l cid).get? j = some (if c.id = cid then { c with matched := true } else c) := by
  unfold setMatched
  rw [List.get?_map, h]
  rfl

theorem flipCard_of_lock {s : GState} (h : s.lockBoard = true) (j : Nat) :
    flipCard j s = s := by
  cases hget : s.cards.get? j with
  | none => rw [flipCard_eq_none hget]
  | some card => rw [flipCard_eq_some hget, if_pos h]

theorem flipCard_of_set {s : GState} {j : Nat} {c : Card} (hget : s.cards.get? j = some c)
    (h : c.flipped = true ∨ c.matched = true) : flipCard j s = s := by
  rw [flipCard_eq_some hget]
  by_cases hlock : s.lockBoard = true
  · rw [if_pos hlock]
  · rw [if_neg hlock, if_pos (by rcases h with h | h <;> rw [h] <;> simp)]

/-! ### Claim theorems -/

/-- Claim C3: the `moves` counter increases by exactly 1 on a reveal that
completes a turn (an effective second flip), regardless of the match or
mismatch outcome, and is unchanged by any other reveal, by timer ticks and
by scheduled callbacks. -/
theorem c3_moves_increment (s : GState) (i k : Nat) :
    (flipCard i s).moves = (if completesTurn s i then s.moves + 1 else s.moves) ∧
    (tick s).moves = s.moves ∧
    (fire k s).moves = s.moves := by
  refine ⟨?_, tick_moves s, ?_⟩
  · cases hget : s.cards.get? i with
    | none =>
      rw [flipCard_eq_none hget, if_neg]
      intro hcon
      rcases hcon with ⟨_, _, c, hc, _⟩
      rw [hget] at hc
      cases hc
    | some card =>
      by_cases hlock : s.lockBoard = true
      · rw [flipCard_eq_some hget, if_pos hlock, if_neg]
        intro hcon
        rw [hcon.1] at hlock
        cases hlock
      · by_cases hfm : (card.flipped || card.matched) = true
        · rw [flipCard_eq_some hget, if_neg hlock, if_pos hfm, if_neg]
          intro hcon
          rcases hcon with ⟨_, _, c, hc, hcf, hcm⟩
          rw [hget, Option.some.injEq] at hc
          rw [hc, hcf, hcm] at hfm
          simp at hfm
        · have hor : (card.flipped || card.matched) = false := by simpa using hfm
          obtain ⟨hcf, hcm⟩ := Bool.or_eq_false_iff.mp hor
          have hl : s.lockBoard = false := by simpa using hlock
          rw [flipCard_eq_some hget, if_neg hlock, if_neg hfm]
          simp only [startTimer_flippedCards, startTimer_cards, startTimer_moves,
            List.length_append, List.length_cons, List.length_nil]
          by_cases hlen : s.flippedCards.length = 1
          · rw [if_pos (by omega), if_pos ⟨hl, hlen, card, hget, hcf, hcm⟩,
              checkForMatch_moves]
          · rw [if_neg (by omega), if_neg (fun hcon => hlen hcon.2.1)]
  · cases hg : s.pending.get? k with
    | none => rw [fire_eq_oob hg]
    | some t =>
      rw [fire_eq_some hg, runTimeout_moves]

/-- Claim C4: for every alphabet and every outcome of the random source, the
Fisher-Yates shuffle is a permutation, so after `createBoard` the board's
icon sequence is a permutation of the duplicated alphabet: it has length 16
for the fixed 8-symbol alphabet and contains each symbol exactly twice. -/
theorem c4_shuffle_permutation :
    (∀ (α : Type) (r : Nat → Nat) (l : List α), List.Perm (shuffle r (l ++ l)) (l ++ l)) ∧
    (∀ (r : Nat → Nat) (s : GState),
      List.Perm ((createBoard r s).cards.map fun c => c.icon) (icons ++ icons) ∧
      ((createBoard r s).cards.map fun c => c.icon).length = 16 ∧
      ∀ a ∈ icons, ((createBoard r s).cards.map fun c => c.icon).count a = 2) := by
  refine ⟨fun α r l => shuffle_perm r (l ++ l), fun r s => ?_⟩
  have hmap : ((createBoard r s).cards.map fun c => c.icon) = shuffle r (icons ++ icons) := by
    rw [(createBoard_fields r s).1, mkCards_map_icon]
  have hperm : List.Perm ((createBoard r s).cards.map fun c => c.icon) (icons ++ icons) := by
    rw [hmap]
    exact shuffle_perm r (icons ++ icons)
  refine ⟨hperm, ?_, ?_⟩
  · rw [hperm.length_eq]
    rfl
  · intro a ha
    rw [hperm.count_eq]
    have hall : ∀ a ∈ icons, (icons ++ icons).count a = 2 := by decide
    exact hall a ha

/-- Witness for C4 at the identity-outcome random source and the symbol
`"fa-heart"`. -/
theorem c4_shuffle_permutation_witness :
    List.Perm (shuffle rid (icons ++ icons)) (icons ++ icons) ∧
    ((createBoard rid initialGlobals).cards.map fun c => c.icon).count "fa-heart" = 2 :=
  ⟨c4_shuffle_permutation.1 String rid icons,
   (c4_shuffle_permutation.2 rid initialGlobals).2.2 "fa-heart" (by decide)⟩

/-- Claim C9: `reset()` (`createBoard`) is idempotent up to the shuffle: one
call yields the cleared state (tiles hidden, empty turn, lock released,
`moves = 0`, timer stopped, `time = 0`), and a second call yields exactly the
same observable state as a single call driven by the same random outcome,
the board differing only in the (identically distributed) icon order. -/
theorem c9_reset_idempotent (r1 r2 : Nat → Nat) (s : GState) :
    ((createBoard r1 s).moves = 0 ∧ (createBoard r1 s).time = 0 ∧
     (createBoard r1 s).lockBoard = false ∧ (createBoard r1 s).gameStarted = false ∧
     (createBoard r1 s).timerOn = false ∧ (createBoard r1 s).flippedCards = [] ∧
     (createBoard r1 s).matchedCount = 0 ∧ (createBoard r1 s).winShown = false ∧
     ∀ c ∈ (createBoard r1 s).cards, c.flipped = false ∧ c.matched = false) ∧
    ((createBoard r2 (createBoard r1 s)).moves = (createBoard r2 s).moves ∧
     (createBoard r2 (createBoard r1 s)).time = (createBoard r2 s).time ∧
     (createBoard r2 (createBoard r1 s)).lockBoard = (createBoard r2 s).lockBoard ∧
     (createBoard r2 (createBoard r1 s)).gameStarted = (createBoard r2 s).gameStarted ∧
     (createBoard r2 (createBoard r1 s)).timerOn = (createBoard r2 s).timerOn ∧
     (createBoard r2 (createBoard r1 s)).flippedCards = (createBoard r2 s).flippedCards ∧
     (createBoard r2 (createBoard r1 s)).matchedCount = (createBoard r2 s).matchedCount ∧
     (createBoard r2 (createBoard r1 s)).winShown = (createBoard r2 s).winShown ∧
     (createBoard r2 (createBoard r1 s)).pending = (createBoard r2 s).pending ∧
     ((createBoard r2 (createBoard r1 s)).cards.map fun c => (c.icon, c.flipped, c.matched))
       = (createBoard r2 s).cards.map fun c => (c.icon, c.flipped, c.matched)) := by
  obtain ⟨hc1, hf1, hm1, hv1, ht1, hg1, hto1, hlb1, hws1, hpd1, hfm1, hft1⟩ :=
    createBoard_fields r1 s
  obtain ⟨hc2, hf2, hm2, hv2, ht2, hg2, hto2, hlb2, hws2, hpd2, hfm2, hft2⟩ :=
    createBoard_fields r2 s
  obtain ⟨hc3, hf3, hm3, hv3, ht3, hg3, hto3, hlb3, hws3, hpd3, hfm3, hft3⟩ :=
    createBoard_fields r2 (createBoard r1 s)
  constructor
  · refine ⟨hv1, ht1, hlb1, hg1, hto1, hf1, hm1, hws1, ?_⟩
    rw [hc1]
    exact mkCards_fresh _ _
  · refine ⟨?_, ?_, ?_, ?_, ?_, ?_, ?_, ?_, ?_, ?_⟩
    · rw [hv3, hv2]
    · rw [ht3, ht2]
    · rw [hlb3, hlb2]
    · rw [hg3, hg2]
    · rw [hto3, hto2]
    · rw [hf3, hf2]
    · rw [hm3, hm2]
    · rw [hws3, hws2]
    · rw [hpd3, hpd2, hpd1]
    · rw [hc3, hc2, mkCards_obs, mkCards_obs]

/-- Witness for C9 at the identity-outcome random source from the
script-load globals. -/
theorem c9_reset_idempotent_witness :
    (createBoard rid (createBoard rid initialGlobals)).moves
      = (createBoard rid initialGlobals).moves :=
  (c9_reset_idempotent rid rid initialGlobals).2.1

/-- Claim C1 fails on the code: after a first-turn mismatch, a restart click
before the 900ms reversion fires, one reveal in the new game, the stale
reversion firing (its `resetTurn()` clears the new game's turn list and
lock), and two further reveals, three tiles are simultaneously in `revealed`
status — the lock does not prevent the third reveal because the stale
callback released it. -/
theorem c1_three_revealed :
    revealedCount (run tripleTrace (init rid)) = 3 := by
  decide

/-- Claim C2 fails on the code: with the stale mismatch reversion still
scheduled after a restart and one reveal in the new game, firing it leaves
every new card untouched (its captured references are detached) but its
unconditional `resetTurn()` wipes the new game's `flippedCards` — the card
with id 16 stays flipped while the turn list is cleared, so the new game's
state is mutated by the stale callback. -/
theorem c2_stale_callback_mutates :
    (run staleTrace (init rid)).flippedCards = [16] ∧
    (run staleTrace (init rid)).pending = [Timeout.mismatch 0 1] ∧
    (fire 0 (run staleTrace (init rid))).flippedCards = [] ∧
    (fire 0 (run staleTrace (init rid))).lockBoard = false ∧
    ({ id := 16, icon := "fa-heart", flipped := true, matched := false } : Card)
      ∈ (fire 0 (run staleTrace (init rid))).cards := by
  decide

theorem step_flip (i : Nat) (s : GState) : step (Event.flip i) s = flipCard i s := rfl

theorem step_fire (k : Nat) (s : GState) : step (Event.fire k) s = fire k s := rfl

theorem step_tick (s : GState) : step Event.tick s = tick s := rfl

/-- Claim C5: within a game, the win overlay implies every tile is matched;
conversely a fully matched board means `endGame` is scheduled or has shown
the overlay; the scheduled `endGame` firing shows the overlay, stops the
timer and freezes the published `finalMoves` / `finalTime` at the current
counters while reveals are already no-ops; and once won, no restart-free
event changes `moves`, `time` or the won status. -/
theorem c5_win (s : GState) (h : InGameReach s) :
    (s.winShown = true → ∀ c ∈ s.cards, c.status = Status.matched) ∧
    ((∀ c ∈ s.cards, c.matched = true) → s.pending = [Timeout.endGame] ∨ s.winShown = true) ∧
    (s.pending = [Timeout.endGame] →
      (fire 0 s).winShown = true ∧ (fire 0 s).timerOn = false ∧
      (fire 0 s).finalMoves = s.moves ∧ (fire 0 s).finalTime = s.time ∧
      (fire 0 s).moves = s.moves ∧ (fire 0 s).time = s.time ∧
      ∀ i, flipCard i s = s) ∧
    (s.winShown = true → ∀ e : Event, e.isReset = false →
      (step e s).moves = s.moves ∧ (step e s).time = s.time ∧ (step e s).winShown = true) := by
  obtain ⟨hnd, hfnd, hsound, hcomp, hpend, hmc, hwa, haw, hwt, hne⟩ := reach_inv h
  have hallm : s.winShown = true → ∀ c ∈ s.cards, c.matched = true := by
    intro hw c hc
    have hfull : (s.cards.filter fun c => c.matched).length = s.cards.length := by
      rw [← hmc]
      exact hwa hw
    exact filter_len_all hfull c hc
  have hflip_all : (∀ c ∈ s.cards, c.matched = true) → ∀ i, flipCard i s = s := by
    intro hall i
    cases hget : s.cards.get? i with
    | none => exact flipCard_eq_none hget
    | some card => exact flipCard_of_set hget (Or.inr (hall card (List.get?_mem hget)))
  refine ⟨?_, ?_, ?_, ?_⟩
  · intro hw c hc
    have hm := hallm hw c hc
    simp [Card.status, hm]
  · intro hall
    apply haw
    rw [hmc]
    exact all_filter_len fun c hc => hall c hc
  · intro hpe
    have hmcl : s.matchedCount = s.cards.length := by
      rcases hpend with ⟨hp, _, _⟩ | ⟨hp, _, _, hm⟩ | ⟨a, _, b, _, hp, _, _⟩
      · rw [hp] at hpe
        cases hpe
      · exact hm
      · rw [hp] at hpe
        simp at hpe
    have hall : ∀ c ∈ s.cards, c.matched = true := by
      intro c hc
      refine filter_len_all ?_ c hc
      rw [← hmc]
      exact hmcl
    rw [fire_eq_head hpe, runTimeout_endGame]
    exact ⟨rfl, rfl, rfl, rfl, rfl, rfl, hflip_all hall⟩
  · intro hw e he
    have hall := hallm hw
    cases e with
    | flip i =>
      rw [step_flip, hflip_all hall i]
      exact ⟨rfl, rfl, hw⟩
    | fire k =>
      rcases hpend with ⟨hp, _, _⟩ | ⟨hp, _, _, hm⟩ | ⟨a, hamem, b, _, hp, _, _⟩
      · have hnone : s.pending.get? k = none := by rw [hp]; rfl
        rw [step_fire, fire_eq_oob hnone]
        exact ⟨rfl, rfl, hw⟩
      · cases k with
        | zero =>
          rw [step_fire, fire_eq_head hp, runTimeout_endGame]
          exact ⟨rfl, rfl, rfl⟩
        | succ k' =>
          have hnone : s.pending.get? (k' + 1) = none := by rw [hp]; rfl
          rw [step_fire, fire_eq_oob hnone]
          exact ⟨rfl, rfl, hw⟩
      · obtain ⟨ca, hca_mem, hca_id, hca_fl, hca_m⟩ := hsound a hamem
        rw [hall ca hca_mem] at hca_m
        cases hca_m
    | tick =>
      rw [step_tick, tick_eq_off (hwt hw)]
      exact ⟨rfl, rfl, hw⟩
    | reset r => cases he

/-- Witness for C5: the winning trace reaches the overlay, and the first
card (still flipped, now matched) is in `matched` status there. -/
theorem c5_win_witness :
    Card.status { id := 0, icon := "fa-heart", flipped := true, matched := true }
      = Status.matched :=
  (c5_win _ ⟨rid, winTrace, by simp [winTrace, Event.isReset], rfl⟩).1 (by decide)
    { id := 0, icon := "fa-heart", flipped := true, matched := true } (by decide)

/-- Claim C6: while a mismatch reversion is scheduled the lock is held and
every reveal is a no-op; when the cool-down fires, the two mismatched cards
revert to `hidden`, the turn list clears, the lock releases, the queue
empties, `moves`, `matchedCount` and `time` are unchanged, the board is the
same list with only the two cards' `flipped` class removed, and every other
card is untouched. -/
theorem c6_mismatch_cooldown (s : GState) (a b : Nat) (h : InGameReach s)
    (hp : s.pending = [Timeout.mismatch a b]) :
    s.lockBoard = true ∧
    (∀ i, flipCard i s = s) ∧
    (fire 0 s).flippedCards = [] ∧
    (fire 0 s).lockBoard = false ∧
    (fire 0 s).pending = [] ∧
    (fire 0 s).moves = s.moves ∧
    (fire 0 s).matchedCount = s.matchedCount ∧
    (fire 0 s).time = s.time ∧
    (fire 0 s).cards
      = (s.cards.map fun c => if c.id = a ∨ c.id = b then { c with flipped := false } else c) ∧
    (∀ c ∈ (fire 0 s).cards, c.id = a ∨ c.id = b → c.status = Status.hidden) ∧
    (∀ c ∈ (fire 0 s).cards, c.id ≠ a → c.id ≠ b → c ∈ s.cards) := by
  obtain ⟨hnd, hfnd, hsound, hcomp, hpend, hmc, hwa, haw, hwt, hne⟩ := reach_inv h
  have hlock : s.lockBoard = true ∧ s.flippedCards = [a, b] := by
    rcases hpend with ⟨hp2, _, _⟩ | ⟨hp2, _, _, _⟩ | ⟨a2, _, b2, _, hp2, hl2, hf2⟩
    · rw [hp2] at hp
      cases hp
    · rw [hp2] at hp
      simp at hp
    · rw [hp2] at hp
      rw [List.cons.injEq] at hp
      have hab : a2 = a ∧ b2 = b := by
        have := hp.1
        rw [Timeout.mismatch.injEq] at this
        exact this
      rw [hab.1, hab.2] at hf2
      exact ⟨hl2, hf2⟩
  obtain ⟨ca, hca_mem, hca_id, hca_fl, hca_m⟩ :=
    hsound a (by rw [hlock.2]; exact List.mem_cons_self _ _)
  obtain ⟨cb, hcb_mem, hcb_id, hcb_fl, hcb_m⟩ :=
    hsound b (by rw [hlock.2]; exact List.mem_cons_of_mem _ (List.mem_cons_self _ _))
  have hfire : fire 0 s
      = resetTurn { { s with pending := [] } with
          cards := setFlipped (setFlipped ({ s with pending := ([] : List Timeout) }).cards a false) b false } := by
    rw [fire_eq_head hp, runTimeout_mismatch]
  have hcards : (fire 0 s).cards
      = s.cards.map fun c => if c.id = a ∨ c.id = b then { c with flipped := false } else c := by
    rw [hfire]
    unfold resetTurn
    dsimp only
    rw [setFlipped_pair]
  refine ⟨hlock.1, ?_, ?_, ?_, ?_, ?_, ?_, ?_, hcards, ?_, ?_⟩
  · intro i
    exact flipCard_of_lock hlock.1 i
  · rw [hfire]; rfl
  · rw [hfire]; rfl
  · rw [hfire]; rfl
  · rw [hfire]; rfl
  · rw [hfire]; rfl
  · rw [hfire]; rfl
  · intro c hc hcid
    rw [hcards] at hc
    rcases List.mem_map.mp hc with ⟨d, hdmem, hdeq⟩
    have hdm : d.matched = false := by
      by_cases hda : d.id = a
      · have := inj_on_ids hnd hdmem hca_mem (by rw [hda, hca_id])
        rw [this]
        exact hca_m
      · have hdb : d.id = b := by
          by_cases hdb : d.id = b
          · exact hdb
          · exfalso
            rw [← hdeq] at hcid
            by_cases hdi : d.id = a ∨ d.id = b
            · exact (by rcases hdi with h1 | h1; exact hda h1; exact hdb h1)
            · rw [if_neg hdi] at hcid
              exact hdi hcid
        have := inj_on_ids hnd hdmem hcb_mem (by rw [hdb, hcb_id])
        rw [this]
        exact hcb_m
    by_cases hdi : d.id = a ∨ d.id = b
    · rw [if_pos hdi] at hdeq
      rw [← hdeq]
      simp [Card.status, hdm]
    · rw [if_neg hdi] at hdeq
      rw [← hdeq] at hcid
      exact absurd hcid hdi
  · intro c hc hna hnb
    rw [hcards] at hc
    rcases List.mem_map.mp hc with ⟨d, hdmem, hdeq⟩
    by_cases hdi : d.id = a ∨ d.id = b
    · rw [if_pos hdi] at hdeq
      exfalso
      rcases hdi with h1 | h1
      · exact hna (by rw [← hdeq, h1])
      · exact hnb (by rw [← hdeq, h1])
    · rw [if_neg hdi] at hdeq
      rw [← hdeq]
      exact hdmem

/-- Witness for C6: the concrete first-turn mismatch under `rid`. -/
theorem c6_mismatch_cooldown_witness :
    (fire 0 (run mismatchTrace (init rid))).flippedCards = [] ∧
    (fire 0 (run mismatchTrace (init rid))).lockBoard = false :=
  ⟨(c6_mismatch_cooldown _ 0 1 ⟨rid, mismatchTrace, by simp [mismatchTrace, Event.isReset], rfl⟩
      (by decide)).2.2.1,
   (c6_mismatch_cooldown _ 0 1 ⟨rid, mismatchTrace, by simp [mismatchTrace, Event.isReset], rfl⟩
      (by decide)).2.2.2.1⟩

theorem handleMismatch_lockBoard (c1 c2 : Nat) (s : GState) :
    (handleMismatch c1 c2 s).lockBoard = s.lockBoard := rfl

theorem flipCard_checkForMatch_noop {s : GState} {j : Nat} {c : Card}
    (hget : s.cards.get? j = some c) (hfl : c.flipped = true) :
    flipCard j (checkForMatch s) = checkForMatch s := by
  unfold checkForMatch
  dsimp only
  split
  · split
    · split
      · -- a match resolved: the card at position j keeps its flipped class
        rename_i x0 c1 c2 tail0 heq0 x1 x2 card1 card2 hf1 hf2 hicon
        obtain ⟨cA, hgA, hflA⟩ :
            ∃ cA, (setMatched s.cards c1).get? j = some cA ∧ cA.flipped = c.flipped :=
          ⟨_, setMatched_get? hget c1, by split <;> rfl⟩
        obtain ⟨cB, hgB, hflB⟩ :
            ∃ cB, (setMatched (setMatched s.cards c1) c2).get? j = some cB
              ∧ cB.flipped = cA.flipped :=
          ⟨_, setMatched_get? hgA c2, by split <;> rfl⟩
        have hg : (handleMatch c1 c2 { s with lockBoard := true }).cards.get? j = some cB := by
          rw [handleMatch_cards]
          exact hgB
        exact flipCard_of_set hg (Or.inl (by rw [hflB, hflA, hfl]))
      · exact flipCard_of_lock rfl _
    · exact flipCard_of_lock rfl _
  · exact flipCard_of_lock rfl _

theorem flipCard_idem (s : GState) (j : Nat) :
    flipCard j (flipCard j s) = flipCard j s := by
  cases hget : s.cards.get? j with
  | none => rw [flipCard_eq_none hget, flipCard_eq_none hget]
  | some card =>
    by_cases hlock : s.lockBoard = true
    · rw [flipCard_eq_some hget, if_pos hlock, flipCard_eq_some hget, if_pos hlock]
    · by_cases hfm : (card.flipped || card.matched) = true
      · rw [flipCard_eq_some hget, if_neg hlock, if_pos hfm, flipCard_eq_some hget,
          if_neg hlock, if_pos hfm]
      · rw [flipCard_eq_some hget, if_neg hlock, if_neg hfm]
        simp only [startTimer_flippedCards, startTimer_cards]
        have hg : (setFlipped s.cards card.id true).get? j
            = some { card with flipped := true } := by
          rw [setFlipped_get? hget card.id true, if_pos rfl]
        split
        · exact flipCard_checkForMatch_noop hg rfl
        · exact flipCard_of_set hg (Or.inl rfl)

/-- Claim C7: `reveal` is a silent no-op — the whole state is unchanged —
whenever the engine is locked or the target tile is already flipped or
matched; in particular revealing the same tile twice in a row always equals
revealing it once. -/
theorem c7_reveal_noop (s : GState) (i : Nat)
    (h : s.lockBoard = true ∨
      ∃ c, s.cards.get? i = some c ∧ (c.flipped = true ∨ c.matched = true)) :
    flipCard i s = s ∧ ∀ (t : GState) (j : Nat), flipCard j (flipCard j t) = flipCard j t := by
  refine ⟨?_, flipCard_idem⟩
  rcases h with hlock | ⟨c, hget, hset⟩
  · exact flipCard_of_lock hlock i
  · exact flipCard_of_set hget hset

/-- Witness for C7: revealing a third tile while the mismatch lock is held
leaves the state unchanged. -/
theorem c7_reveal_noop_witness :
    flipCard 2 (run mismatchTrace (init rid)) = run mismatchTrace (init rid) :=
  (c7_reveal_noop (run mismatchTrace (init rid)) 2 (Or.inl (by decide))).1

theorem mpres_refl (l : List Card) : MPres l l :=
  fun c hc hm => ⟨c, hc, rfl, hm⟩

theorem mpres_trans {l1 l2 l3 : List Card} (h1 : MPres l1 l2) (h2 : MPres l2 l3) :
    MPres l1 l3 := by
  intro c hc hm
  obtain ⟨c2, hc2, hid2, hm2⟩ := h1 c hc hm
  obtain ⟨c3, hc3, hid3, hm3⟩ := h2 c2 hc2 hm2
  exact ⟨c3, hc3, by rw [hid3, hid2], hm3⟩

theorem mpres_setFlipped (l : List Card) (cid : Nat) (v : Bool) :
    MPres l (setFlipped l cid v) := by
  intro c hc hm
  have h2 := List.mem_map_of_mem (fun x => if x.id = cid then { x with flipped := v } else x) hc
  refine ⟨_, h2, ?_, ?_⟩ <;> dsimp only <;> split <;> simp [hm]

theorem mpres_setMatched (l : List Card) (cid : Nat) :
    MPres l (setMatched l cid) := by
  intro c hc hm
  have h2 := List.mem_map_of_mem (fun x => if x.id = cid then { x with matched := true } else x) hc
  refine ⟨_, h2, ?_, ?_⟩ <;> dsimp only <;> split <;> simp [hm]

theorem mpres_checkForMatch (u : GState) : MPres u.cards (checkForMatch u).cards := by
  unfold checkForMatch
  dsimp only
  split
  · split
    · split
      · rename_i x0 c1 c2 tail0 heq0 x1 x2 card1 card2 hf1 hf2 hicon
        rw [handleMatch_cards]
        exact mpres_trans (mpres_setMatched u.cards c1) (mpres_setMatched _ c2)
      · exact mpres_refl _
    · exact mpres_refl _
  · exact mpres_refl _

theorem mpres_flipCard (s : GState) (j : Nat) : MPres s.cards (flipCard j s).cards := by
  cases hget : s.cards.get? j with
  | none =>
    rw [flipCard_eq_none hget]
    exact mpres_refl _
  | some card =>
    by_cases hlock : s.lockBoard = true
    · rw [flipCard_eq_some hget, if_pos hlock]
      exact mpres_refl _
    · by_cases hfm : (card.flipped || card.matched) = true
      · rw [flipCard_eq_some hget, if_neg hlock, if_pos hfm]
        exact mpres_refl _
      · rw [flipCard_eq_some hget, if_neg hlock, if_neg hfm]
        simp only [startTimer_flippedCards, startTimer_cards]
        split
        · refine mpres_trans (mpres_setFlipped s.cards card.id true) ?_
          exact mpres_checkForMatch { cards := setFlipped s.cards card.id true, flippedCards := s.flippedCards ++ [card.id], matchedCount := (startTimer s).matchedCount, moves := (startTimer s).moves + 1, time := (startTimer s).time, gameStarted := (startTimer s).gameStarted, timerOn := (startTimer s).timerOn, lockBoard := (startTimer s).lockBoard, winShown := (startTimer s).winShown, finalMoves := (startTimer s).finalMoves, finalTime := (startTimer s).finalTime, pending := (startTimer s).pending, nextId := (startTimer s).nextId }
        · exact mpres_setFlipped s.cards card.id true

theorem mpres_step (e : Event) (s : GState) (he : e.isReset = false) :
    MPres s.cards (step e s).cards := by
  cases e with
  | flip i => exact mpres_flipCard s i
  | fire k =>
    rw [step_fire]
    cases hg : s.pending.get? k with
    | none =>
      rw [fire_eq_oob hg]
      exact mpres_refl _
    | some t =>
      rw [fire_eq_some hg]
      cases t with
      | mismatch c1 c2 =>
        rw [runTimeout_mismatch]
        unfold resetTurn
        dsimp only
        exact mpres_trans (mpres_setFlipped s.cards c1 false) (mpres_setFlipped _ c2 false)
      | endGame =>
        rw [runTimeout_endGame]
        exact mpres_refl _
  | tick =>
    rw [step_tick]
    unfold tick
    split
    · exact mpres_refl _
    · exact mpres_refl _
  | reset r => cases he

theorem mpres_run (es : List Event) (hes : ∀ e ∈ es, e.isReset = false) (s : GState) :
    MPres s.cards (run es s).cards := by
  induction es generalizing s with
  | nil => exact mpres_refl _
  | cons e es ih =>
    rw [run_cons]
    exact mpres_trans (mpres_step e s (hes e (List.mem_cons_self e es)))
      (ih (fun e' he' => hes e' (List.mem_cons_of_mem e he')) (step e s))

/-- Claim C8: within a game (no restart), a tile that has reached `matched`
status stays matched: after any restart-free event sequence a card with the
same identity is still on the board with `matched` set, hence still in
`matched` status. -/
theorem c8_matched_forever (s : GState) (es : List Event)
    (hes : ∀ e ∈ es, e.isReset = false) (c : Card) (hc : c ∈ s.cards)
    (hm : c.matched = true) :
    ∃ c' ∈ (run es s).cards, c'.id = c.id ∧ c'.matched = true
      ∧ c'.status = Status.matched := by
  obtain ⟨c', hc', hid, hm'⟩ := mpres_run es hes s c hc hm
  exact ⟨c', hc', hid, hm', by simp [Card.status, hm']⟩

/-- Witness for C8: the pair matched in the first turn is still matched
after a further reveal. -/
theorem c8_matched_forever_witness :
    ∃ c' ∈ (run [Event.flip 1] (run matchTrace (init rid))).cards,
      c'.id = 0 ∧ c'.matched = true ∧ c'.status = Status.matched :=
  c8_matched_forever (run matchTrace (init rid)) [Event.flip 1]
    (by simp [Event.isReset])
    { id := 0, icon := "fa-heart", flipped := true, matched := true }
    (by decide) rfl

theorem checkForMatch_mc (u : GState) :
    (checkForMatch u).matchedCount = u.matchedCount ∨
    (checkForMatch u).matchedCount = u.matchedCount + 2 := by
  unfold checkForMatch
  dsimp only
  split
  · split
    · split
      · rename_i x0 c1 c2 tail0 heq0 x1 x2 card1 card2 hf1 hf2 hicon
        right
        rw [handleMatch_matchedCount]
      · left
        rfl
    · left
      rfl
  · left
    rfl

theorem flipCard_mc (s : GState) (j : Nat) :
    (flipCard j s).matchedCount = s.matchedCount ∨
    (flipCard j s).matchedCount = s.matchedCount + 2 := by
  cases hget : s.cards.get? j with
  | none =>
    rw [flipCard_eq_none hget]
    exact Or.inl rfl
  | some card =>
    by_cases hlock : s.lockBoard = true
    · rw [flipCard_eq_some hget, if_pos hlock]
      exact Or.inl rfl
    · by_cases hfm : (card.flipped || card.matched) = true
      · rw [flipCard_eq_some hget, if_neg hlock, if_pos hfm]
        exact Or.inl rfl
      · rw [flipCard_eq_some hget, if_neg hlock, if_neg hfm]
        simp only [startTimer_flippedCards, startTimer_cards, startTimer_matchedCount]
        split
        · exact checkForMatch_mc _
        · exact Or.inl rfl

theorem runTimeout_mc (t : Timeout) (s : GState) :
    (runTimeout t s).matchedCount = s.matchedCount := by
  cases t <;> rfl

theorem step_mc (e : Event) (s : GState) (he : e.isReset = false) :
    (step e s).matchedCount = s.matchedCount ∨
    (step e s).matchedCount = s.matchedCount + 2 := by
  cases e with
  | flip i => exact flipCard_mc s i
  | fire k =>
    rw [step_fire]
    cases hg : s.pending.get? k with
    | none =>
      rw [fire_eq_oob hg]
      exact Or.inl rfl
    | some t =>
      rw [fire_eq_some hg, runTimeout_mc]
      exact Or.inl rfl
  | tick =>
    rw [step_tick]
    unfold tick
    split
    · exact Or.inl rfl
    · exact Or.inl rfl
  | reset r => cases he

theorem run_mc_even {s : GState} (hs : 2 ∣ s.matchedCount) {es : List Event}
    (hes : ∀ e ∈ es, e.isReset = false) : 2 ∣ (run es s).matchedCount := by
  induction es generalizing s with
  | nil => exact hs
  | cons e es ih =>
    rw [run_cons]
    refine ih ?_ fun e' he' => hes e' (List.mem_cons_of_mem e he')
    rcases step_mc e s (hes e (List.mem_cons_self e es)) with h2 | h2 <;> rw [h2] <;> omega

/-- Claim C10: within a game, `matchedCount` equals the number of tiles in
`matched` status, is always even, is zeroed by `createBoard`, and changes
only by exactly `+2` (on a resolved match) under any restart-free event. -/
theorem c10_matched_count (s : GState) (h : InGameReach s) :
    s.matchedCount = (s.cards.filter fun c => c.matched).length ∧
    2 ∣ s.matchedCount ∧
    (∀ r : Nat → Nat, (createBoard r s).matchedCount = 0) ∧
    (∀ e : Event, e.isReset = false →
      (step e s).matchedCount = s.matchedCount ∨
      (step e s).matchedCount = s.matchedCount + 2) := by
  obtain ⟨hnd, hfnd, hsound, hcomp, hpend, hmc, hwa, haw, hwt, hne⟩ := reach_inv h
  refine ⟨hmc, ?_, ?_, ?_⟩
  · obtain ⟨r, es, hes, rfl⟩ := h
    refine run_mc_even ?_ hes
    show 2 ∣ (createBoard r initialGlobals).matchedCount
    rw [(createBoard_fields r initialGlobals).2.2.1]
    exact Dvd.intro 0 rfl
  · intro r
    exact (createBoard_fields r s).2.2.1
  · intro e he
    exact step_mc e s he

/-- Witness for C10 at the freshly loaded game. -/
theorem c10_matched_count_witness :
    (init rid).matchedCount = ((init rid).cards.filter fun c => c.matched).length :=
  (c10_matched_count _ ⟨rid, [], by simp, rfl⟩).1

end MemoryGame
